import Mathlib

/-!
Verification of the interrupted-time-series analysis pipeline
(analysis/its.py) of the antidepressant-prescribing repository.

The Python functions are shallowly embedded: dataframes become lists of
records, machine floats become real numbers, pandas/stat library calls
that the code only forwards to (the optimizer, string formatting of a
float) become explicit function parameters, and fallible operations
(.iloc[0] on an empty selection, list.remove on an absent element,
tuple-unpacking of str.split) return Option/Except.
-/

namespace LDA

/-- Calendar month: the `date` column at month resolution. -/
structure Date where
  year : Int
  month : Int
deriving DecidableEq, Repr

/-- Strict lexicographic order on dates: `a` is an earlier month than `b`. -/
def Date.before (a b : Date) : Bool :=
  a.year < b.year || (a.year == b.year && a.month < b.month)

/-- The calendar month after `d`. -/
def nextMonth (d : Date) : Date :=
  if d.month = 12 then { year := d.year + 1, month := 1 }
  else { year := d.year, month := d.month + 1 }

/-- One row of the measures table as it enters `get_its_variables`
(after numeric coercion). -/
structure SrcRow where
  name : String
  date : Date
  numerator : ℚ
  denominator : ℚ
  value : ℚ
deriving DecidableEq, Repr

/-- One row of the dataframe `get_its_variables` returns: the source row
plus the derived interrupted-time-series columns, in the order the code
creates them. -/
structure ITSRow where
  name : String
  date : Date
  numerator : ℚ
  denominator : ℚ
  value : ℚ
  rate : ℚ
  time : Int
  step : Int
  slope : Int
  step2 : Int
  slope2 : Int
  mar20 : Int
  april20 : Int
deriving DecidableEq, Repr

/-- The `time` column: `12 * (year - min_year) + month`
(its.py line 140). -/
def timeOf (minYear : Int) (d : Date) : Int :=
  12 * (d.year - minYear) + d.month

/-- The per-row body of `get_its_variables` (its.py lines 139-155):
given the minimum observed year and the two cutoff month indices,
derive the ITS columns of one row. -/
def mkITSRow (minYear cutmonth1 cutmonth2 : Int) (r : SrcRow) : ITSRow :=
  let t := timeOf minYear r.date
  { name := r.name
    date := r.date
    numerator := r.numerator
    denominator := r.denominator
    value := r.value
    rate := 1000 * r.value
    time := t
    step := if t > cutmonth1 then 1 else 0
    slope := max (t - cutmonth1) 0
    step2 := if t > cutmonth2 then 1 else 0
    slope2 := max (t - cutmonth2) 0
    mar20 := if t = cutmonth1 + 1 then 1 else 0
    april20 := if t = cutmonth1 + 2 then 1 else 0 }

/-- `get_its_variables` (its.py lines 132-158).  `min` of an empty year
column raises, as does `.iloc[0]` on an empty date selection, so those
cases are `none`.  The cutoff month index is the `time` of the first row
whose date equals the cutoff, minus 1. -/
def get_its_variables (rows : List SrcRow) (cutdate1 cutdate2 : Date) :
    Option (List ITSRow) :=
  match (rows.map (fun r => r.date.year)).min?,
      rows.find? (fun r => r.date == cutdate1),
      rows.find? (fun r => r.date == cutdate2) with
  | some minYear, some c1row, some c2row =>
      some (rows.map (mkITSRow minYear (timeOf minYear c1row.date - 1)
        (timeOf minYear c2row.date - 1)))
  | _, _, _ => none

/-- A successful run of `get_its_variables` names a minimum year and the two
cutoff rows, and maps `mkITSRow` over the input. -/
lemma get_its_variables_eq_some {rows : List SrcRow} {cut1 cut2 : Date}
    {out : List ITSRow} (h : get_its_variables rows cut1 cut2 = some out) :
    ∃ minY r1 r2, (rows.map (fun r => r.date.year)).min? = some minY ∧
      rows.find? (fun r => r.date == cut1) = some r1 ∧
      rows.find? (fun r => r.date == cut2) = some r2 ∧
      out = rows.map (mkITSRow minY (timeOf minY r1.date - 1)
        (timeOf minY r2.date - 1)) := by
  unfold get_its_variables at h
  rcases hm : (rows.map (fun r => r.date.year)).min? with _ | minY <;>
    rcases h1 : rows.find? (fun r => r.date == cut1) with _ | r1 <;>
      rcases h2 : rows.find? (fun r => r.date == cut2) with _ | r2 <;>
        rw [hm, h1, h2] at h <;> simp only [Option.some.injEq] at h
  · cases h
  · cases h
  · cases h
  · cases h
  · cases h
  · cases h
  · cases h
  · exact ⟨minY, r1, r2, hm, h1, h2, h.symm⟩

/-- An option known to hold a value equals `some` of its `getD`. -/
lemma eq_some_getD_of_isSome {α : Type _} (o : Option α) (d : α)
    (h : o.isSome = true) : o = some (o.getD d) := by
  cases o with
  | none => cases h
  | some a => rfl

/-- Every element of a `zip` of a mapped list with the list itself is a
(`f x`, `x`) pair. -/
lemma fst_eq_of_mem_zip_map {α β : Type _} (f : α → β) (l : List α) :
    ∀ p ∈ (l.map f).zip l, p.1 = f p.2 := by
  induction l with
  | nil => intro p hp; simp at hp
  | cons a l ih =>
      intro p hp
      rw [List.map_cons, List.zip_cons_cons] at hp
      rcases List.mem_cons.1 hp with hp | hp
      · rw [hp]
      · exact ih p hp

/-- The derived `time` field of a row built by `mkITSRow`. -/
lemma mkITSRow_time (minYear cutmonth1 cutmonth2 : Int) (r : SrcRow) :
    (mkITSRow minYear cutmonth1 cutmonth2 r).time = timeOf minYear r.date :=
  rfl

/-- Advancing one calendar month advances `time` by exactly one. -/
lemma timeOf_nextMonth (minYear : Int) (d : Date) :
    timeOf minYear (nextMonth d) = timeOf minYear d + 1 := by
  unfold timeOf nextMonth
  by_cases h : d.month = 12
  · rw [if_pos h, h]; ring
  · rw [if_neg h]; ring

/-- C1: on a subset containing rows dated at both cutoffs,
`get_its_variables` derives `step`, `slope`, `step2`, `slope2`, `mar20`
and `april20` from `time` and the cutoff month indices
`c1 = o1.time - 1`, `c2 = o2.time - 1`, where `o1`, `o2` are the rows
dated at the first and second cutoff. -/
theorem get_its_variables_intervention_regressors
    (rows : List SrcRow) (cut1 cut2 : Date) (out : List ITSRow)
    (o1 o2 : ITSRow)
    (h : get_its_variables rows cut1 cut2 = some out)
    (h1 : out.find? (fun o => o.date == cut1) = some o1)
    (h2 : out.find? (fun o => o.date == cut2) = some o2) :
    ∀ o ∈ out,
      o.step = (if o.time > o1.time - 1 then 1 else 0) ∧
      o.slope = max (o.time - (o1.time - 1)) 0 ∧
      o.step2 = (if o.time > o2.time - 1 then 1 else 0) ∧
      o.slope2 = max (o.time - (o2.time - 1)) 0 ∧
      o.mar20 = (if o.time = (o1.time - 1) + 1 then 1 else 0) ∧
      o.april20 = (if o.time = (o1.time - 1) + 2 then 1 else 0) := by
  obtain ⟨minY, r1, r2, hm, hf1, hf2, rfl⟩ := get_its_variables_eq_some h
  rw [List.find?_map] at h1 h2
  have ec1 : ((fun o : ITSRow => o.date == cut1) ∘
      mkITSRow minY (timeOf minY r1.date - 1) (timeOf minY r2.date - 1)) =
      (fun r : SrcRow => r.date == cut1) := rfl
  have ec2 : ((fun o : ITSRow => o.date == cut2) ∘
      mkITSRow minY (timeOf minY r1.date - 1) (timeOf minY r2.date - 1)) =
      (fun r : SrcRow => r.date == cut2) := rfl
  rw [ec1, hf1, Option.map_some'] at h1
  rw [ec2, hf2, Option.map_some'] at h2
  cases h1
  cases h2
  intro o ho
  obtain ⟨r, _, rfl⟩ := List.mem_map.1 ho
  exact ⟨rfl, rfl, rfl, rfl, rfl, rfl⟩

/-- C7: the `time` column equals `12 * (year - min observed year) + month`;
month 1 of the first observed year gets `time = 1`; and over a contiguous
gap-free monthly series `time` increases by exactly 1 per row. -/
theorem get_its_variables_time_column
    (rows : List SrcRow) (cut1 cut2 : Date) (out : List ITSRow) (minY : Int)
    (h : get_its_variables rows cut1 cut2 = some out)
    (hm : (rows.map (fun r => r.date.year)).min? = some minY) :
    (∀ p ∈ out.zip rows,
      p.1.time = 12 * (p.2.date.year - minY) + p.2.date.month) ∧
    timeOf minY { year := minY, month := 1 } = 1 ∧
    (List.Chain' (fun a b => b.date = nextMonth a.date) rows →
      List.Chain' (fun a b : ITSRow => b.time = a.time + 1) out) := by
  obtain ⟨minY', r1, r2, hm', hf1, hf2, rfl⟩ := get_its_variables_eq_some h
  rw [hm'] at hm
  cases hm
  refine ⟨?_, ?_, ?_⟩
  · intro p hp
    rw [fst_eq_of_mem_zip_map _ rows p hp]
    rfl
  · unfold timeOf
    simp
  · intro hc
    rw [List.chain'_map]
    refine List.Chain'.imp ?_ hc
    intro a b hab
    rw [mkITSRow_time, mkITSRow_time, hab, timeOf_nextMonth]

/-- A default derived row (for total lookups in concrete witnesses). -/
def dummyITSRow : ITSRow :=
  { name := "", date := { year := 0, month := 0 }, numerator := 0,
    denominator := 0, value := 0, rate := 0, time := 0, step := 0,
    slope := 0, step2 := 0, slope2 := 0, mar20 := 0, april20 := 0 }

/-- A concrete three-month series (Jan-Mar 2020) for witnesses. -/
def wRows : List SrcRow :=
  [{ name := "m", date := { year := 2020, month := 1 }, numerator := 1,
     denominator := 10, value := 1 / 10 },
   { name := "m", date := { year := 2020, month := 2 }, numerator := 2,
     denominator := 10, value := 2 / 10 },
   { name := "m", date := { year := 2020, month := 3 }, numerator := 3,
     denominator := 10, value := 3 / 10 }]

/-- First cutoff used by the witnesses. -/
def wCut1 : Date := { year := 2020, month := 2 }

/-- Second cutoff used by the witnesses. -/
def wCut2 : Date := { year := 2020, month := 3 }

/-- The derived dataframe of the witness series. -/
def wOut : List ITSRow := (get_its_variables wRows wCut1 wCut2).getD []

/-- The derived row dated at the first cutoff. -/
def wO1 : ITSRow := (wOut.find? (fun o => o.date == wCut1)).getD dummyITSRow

/-- The derived row dated at the second cutoff. -/
def wO2 : ITSRow := (wOut.find? (fun o => o.date == wCut2)).getD dummyITSRow

/-- Witness for C1 on the concrete three-month series. -/
theorem get_its_variables_intervention_regressors_witness :
    get_its_variables wRows wCut1 wCut2 = some wOut ∧
    ∀ o ∈ wOut,
      o.step = (if o.time > wO1.time - 1 then 1 else 0) ∧
      o.slope = max (o.time - (wO1.time - 1)) 0 ∧
      o.step2 = (if o.time > wO2.time - 1 then 1 else 0) ∧
      o.slope2 = max (o.time - (wO2.time - 1)) 0 ∧
      o.mar20 = (if o.time = (wO1.time - 1) + 1 then 1 else 0) ∧
      o.april20 = (if o.time = (wO1.time - 1) + 2 then 1 else 0) :=
  ⟨eq_some_getD_of_isSome _ [] (by decide),
   get_its_variables_intervention_regressors wRows wCut1 wCut2 wOut wO1 wO2
     (eq_some_getD_of_isSome _ [] (by decide))
     (eq_some_getD_of_isSome _ dummyITSRow (by decide))
     (eq_some_getD_of_isSome _ dummyITSRow (by decide))⟩

/-- Witness for C7 on the concrete three-month series. -/
theorem get_its_variables_time_column_witness :
    (∀ p ∈ wOut.zip wRows,
      p.1.time = 12 * (p.2.date.year - 2020) + p.2.date.month) ∧
    timeOf 2020 { year := 2020, month := 1 } = 1 ∧
    (List.Chain' (fun a b => b.date = nextMonth a.date) wRows →
      List.Chain' (fun a b : ITSRow => b.time = a.time + 1) wOut) :=
  get_its_variables_time_column wRows wCut1 wCut2 wOut 2020
    (eq_some_getD_of_isSome _ [] (by decide)) (by decide)

/-!
Counterfactual prediction (`plot_cf`, its.py lines 423-448).  A fitted
single-series Poisson model predicts `exp(X . beta) * exposure`; the
regressors are the derived ITS columns plus the two seasonal harmonics.
-/

/-- Coefficient vector of the fitted single-series model, one entry per
regressor of the formula built by `get_formula` without interaction. -/
structure Params where
  intercept : ℝ
  time : ℝ
  step : ℝ
  slope : ℝ
  mar20 : ℝ
  april20 : ℝ
  step2 : ℝ
  slope2 : ℝ
  s1 : ℝ
  c1 : ℝ

/-- Linear predictor `X . beta` of one regressor row (the harmonics
`s1`, `c1` are passed alongside the derived row, as in the source where
the fourier columns are concatenated onto the ITS dataframe). -/
noncomputable def linpred (β : Params) (o : ITSRow) (s1v c1v : ℝ) : ℝ :=
  β.intercept + β.time * (o.time : ℝ) + β.step * (o.step : ℝ) +
    β.slope * (o.slope : ℝ) + β.mar20 * (o.mar20 : ℝ) +
    β.april20 * (o.april20 : ℝ) + β.step2 * (o.step2 : ℝ) +
    β.slope2 * (o.slope2 : ℝ) + β.s1 * s1v + β.c1 * c1v

/-- Model prediction for one row: the Poisson mean
`exp(X . beta) * exposure` (exposure is the denominator column). -/
noncomputable def predict (β : Params) (o : ITSRow) (s1v c1v : ℝ) : ℝ :=
  Real.exp (linpred β o s1v c1v) * (o.denominator : ℝ)

/-- The no-intervention counterfactual table of `plot_cf` (lines
429-435): `slope`, `step`, `mar20`, `april20`, `slope2`, `step2` all set
to zero. -/
def zero_interventions (o : ITSRow) : ITSRow :=
  { o with slope := 0, step := 0, mar20 := 0, april20 := 0,
           slope2 := 0, step2 := 0 }

/-- The no-second-intervention counterfactual table of `plot_cf` (lines
442-444): only `slope2` and `step2` set to zero. -/
def zero_second (o : ITSRow) : ITSRow :=
  { o with slope2 := 0, step2 := 0 }

/-- Strict date order gives strict `time` order, for in-range months. -/
lemma timeOf_lt_of_before (minY : Int) {a b : Date}
    (h : a.before b = true) (ha : a.month ≤ 12) (hb : 1 ≤ b.month) :
    timeOf minY a < timeOf minY b := by
  unfold Date.before at h
  unfold timeOf
  simp only [Bool.or_eq_true, decide_eq_true_eq, Bool.and_eq_true,
    beq_iff_eq] at h
  rcases h with h | ⟨h1, h2⟩ <;> omega

/-- Zeroing the six intervention columns of a row whose intervention
columns are already zero is the identity. -/
lemma zero_interventions_eq_self {o : ITSRow}
    (h1 : o.step = 0) (h2 : o.slope = 0) (h3 : o.mar20 = 0)
    (h4 : o.april20 = 0) (h5 : o.step2 = 0) (h6 : o.slope2 = 0) :
    zero_interventions o = o := by
  cases o
  simp_all [zero_interventions]

/-- Zeroing the two second-cutoff columns of a row whose second-cutoff
columns are already zero is the identity. -/
lemma zero_second_eq_self {o : ITSRow}
    (h5 : o.step2 = 0) (h6 : o.slope2 = 0) :
    zero_second o = o := by
  cases o
  simp_all [zero_second]

/-- C8: for rows dated before the first cutoff the no-intervention
counterfactual prediction equals the factual prediction (the intervention
regressors are already zero there); for rows dated before the second
cutoff the no-second-intervention counterfactual prediction equals the
factual prediction. -/
theorem plot_cf_counterfactual_precutoff
    (rows : List SrcRow) (cut1 cut2 : Date) (out : List ITSRow)
    (β : Params) (s1v c1v : ℝ)
    (h : get_its_variables rows cut1 cut2 = some out)
    (hmonth : ∀ r ∈ rows, 1 ≤ r.date.month ∧ r.date.month ≤ 12)
    (h12 : cut1.before cut2 = true) :
    ∀ o ∈ out,
      (o.date.before cut1 = true →
        predict β (zero_interventions o) s1v c1v = predict β o s1v c1v) ∧
      (o.date.before cut2 = true →
        predict β (zero_second o) s1v c1v = predict β o s1v c1v) := by
  obtain ⟨minY, r1, r2, hm, hf1, hf2, rfl⟩ := get_its_variables_eq_some h
  have hd1 : r1.date = cut1 := by
    have := List.find?_some hf1
    simpa using this
  have hd2 : r2.date = cut2 := by
    have := List.find?_some hf2
    simpa using this
  have hr1m := hmonth r1 (List.mem_of_find?_eq_some hf1)
  have hr2m := hmonth r2 (List.mem_of_find?_eq_some hf2)
  have ht12 : timeOf minY r1.date < timeOf minY r2.date := by
    rw [hd1, hd2]
    exact timeOf_lt_of_before minY h12 (hd1 ▸ hr1m.2) (hd2 ▸ hr2m.1)
  intro o ho
  obtain ⟨r, hr, rfl⟩ := List.mem_map.1 ho
  have hrm := hmonth r hr
  constructor
  · intro hb
    have hb' : r.date.before cut1 = true := hb
    have ht1 : timeOf minY r.date < timeOf minY r1.date := by
      rw [hd1]
      exact timeOf_lt_of_before minY hb' hrm.2 (hd1 ▸ hr1m.1)
    have heq : zero_interventions (mkITSRow minY (timeOf minY r1.date - 1)
        (timeOf minY r2.date - 1) r) = mkITSRow minY
        (timeOf minY r1.date - 1) (timeOf minY r2.date - 1) r := by
      apply zero_interventions_eq_self
      · show (if timeOf minY r.date > timeOf minY r1.date - 1
            then (1 : Int) else 0) = 0
        rw [if_neg]
        omega
      · show max (timeOf minY r.date - (timeOf minY r1.date - 1)) 0 = 0
        rw [max_eq_right]
        omega
      · show (if timeOf minY r.date = timeOf minY r1.date - 1 + 1
            then (1 : Int) else 0) = 0
        rw [if_neg]
        omega
      · show (if timeOf minY r.date = timeOf minY r1.date - 1 + 2
            then (1 : Int) else 0) = 0
        rw [if_neg]
        omega
      · show (if timeOf minY r.date > timeOf minY r2.date - 1
            then (1 : Int) else 0) = 0
        rw [if_neg]
        omega
      · show max (timeOf minY r.date - (timeOf minY r2.date - 1)) 0 = 0
        rw [max_eq_right]
        omega
    rw [heq]
  · intro hb
    have hb' : r.date.before cut2 = true := hb
    have ht2 : timeOf minY r.date < timeOf minY r2.date := by
      rw [hd2]
      exact timeOf_lt_of_before minY hb' hrm.2 (hd2 ▸ hr2m.1)
    have heq : zero_second (mkITSRow minY (timeOf minY r1.date - 1)
        (timeOf minY r2.date - 1) r) = mkITSRow minY
        (timeOf minY r1.date - 1) (timeOf minY r2.date - 1) r := by
      apply zero_second_eq_self
      · show (if timeOf minY r.date > timeOf minY r2.date - 1
            then (1 : Int) else 0) = 0
        rw [if_neg]
        omega
      · show max (timeOf minY r.date - (timeOf minY r2.date - 1)) 0 = 0
        rw [max_eq_right]
        omega
    rw [heq]

/-- An all-zero coefficient vector for the C8 witness. -/
noncomputable def wParams : Params :=
  { intercept := 0, time := 0, step := 0, slope := 0, mar20 := 0,
    april20 := 0, step2 := 0, slope2 := 0, s1 := 0, c1 := 0 }

/-- Witness for C8 on the concrete three-month series. -/
theorem plot_cf_counterfactual_precutoff_witness :
    wCut1.before wCut2 = true ∧
    ∀ o ∈ wOut,
      (o.date.before wCut1 = true →
        predict wParams (zero_interventions o) 0 0 = predict wParams o 0 0) ∧
      (o.date.before wCut2 = true →
        predict wParams (zero_second o) 0 0 = predict wParams o 0 0) :=
  ⟨by decide,
   plot_cf_counterfactual_precutoff wRows wCut1 wCut2 wOut wParams 0 0
     (eq_some_getD_of_isSome _ [] (by decide)) (by decide) (by decide)⟩

/-!
Inference extraction (`get_ci_df`, its.py lines 271-292).  `fmt` stands
for Python float-to-string rendering; the rounding to `round_to` decimal
places is explicit.
-/

/-- One coefficient with its 95% confidence bounds, on the log scale,
as read off the fitted model (`model.params` / `model.conf_int()`). -/
structure CoefRow where
  name : String
  coef : ℝ
  lci : ℝ
  uci : ℝ

/-- The intermediate dataframe of `get_ci_df` after the `error` column
is added (line 281): four numeric columns, all still on the log scale. -/
structure LogRow where
  name : String
  coef : ℝ
  lci : ℝ
  uci : ℝ
  error : ℝ

/-- One output row of `get_ci_df`. -/
structure CIRow where
  name : String
  coef : ℝ
  lci : ℝ
  uci : ℝ
  error : ℝ
  pcnt : String

/-- The percent-change transform `100 * (exp(x) - 1)` (line 282). -/
noncomputable def pcntTransform (x : ℝ) : ℝ := 100 * (Real.exp x - 1)

/-- Line 282, `df = 100 * (numpy.exp(df) - 1)`: the transform applies to
every numeric column of the frame, the `error` column included. -/
noncomputable def transform_all (r : LogRow) : LogRow :=
  { r with coef := pcntTransform r.coef, lci := pcntTransform r.lci,
           uci := pcntTransform r.uci, error := pcntTransform r.error }

/-- Rounding to `n` decimal places (Python `round(x, n)`; the tie-break
rule is immaterial here and modelled as round-half-up). -/
noncomputable def roundTo (n : ℕ) (x : ℝ) : ℝ :=
  ((round (x * 10 ^ n) : ℤ) : ℝ) / 10 ^ n

/-- The per-row computation of `get_ci_df`: add `error = coef - lci`,
apply the percent transform to the whole frame, then format the
`pcnt` string from the transformed, rounded values. -/
noncomputable def ci_row (fmt : ℝ → String) (round_to : ℕ) (r : CoefRow) :
    CIRow :=
  let lr : LogRow := { name := r.name, coef := r.coef, lci := r.lci,
                       uci := r.uci, error := r.coef - r.lci }
  let tr := transform_all lr
  { name := tr.name, coef := tr.coef, lci := tr.lci, uci := tr.uci,
    error := tr.error,
    pcnt := fmt (roundTo round_to tr.coef) ++ "% (" ++
      fmt (roundTo round_to tr.lci) ++ "% to " ++
      fmt (roundTo round_to tr.uci) ++ "%)" }

/-- `get_ci_df` (its.py lines 271-292). -/
noncomputable def get_ci_df (fmt : ℝ → String) (round_to : ℕ)
    (rows : List CoefRow) : List CIRow :=
  rows.map (ci_row fmt round_to)

/-- C2 counterexample: the returned `error` column is NOT the log-scale
`coef - lci`; at `coef = log 2, lci = 0` the code returns
`100 * (exp(log 2) - 1) = 100`, not `log 2`. -/
theorem get_ci_df_error_column_counterexample :
    (get_ci_df (fun _ => "") 2
        [{ name := "step", coef := Real.log 2, lci := 0, uci := 0 }]).map
      CIRow.error ≠ [Real.log 2 - 0] := by
  intro hEq
  simp only [get_ci_df, List.map_cons, List.map_nil, ci_row,
    transform_all, pcntTransform, List.cons.injEq, and_true] at hEq
  rw [sub_zero] at hEq
  rw [Real.exp_log (by norm_num : (0 : ℝ) < 2)] at hEq
  have h2 : Real.log 2 ≤ 2 - 1 :=
    Real.log_le_sub_one_of_pos (by norm_num)
  norm_num at hEq
  linarith [hEq, h2]

/-- C2 (amended): `get_ci_df` keeps one row per coefficient; `coef`,
`lci`, `uci` are the percent-change transform of the log-scale values;
`error` is the percent-change transform of the log-scale `coef - lci`
(the transform is applied to the whole frame, `error` included); `pcnt`
is the formatted percent string built from the transformed values rounded
to `round_to` decimal places. -/
theorem get_ci_df_spec (fmt : ℝ → String) (n : ℕ) (rows : List CoefRow) :
    (get_ci_df fmt n rows).length = rows.length ∧
    ∀ p ∈ (get_ci_df fmt n rows).zip rows,
      p.1.name = p.2.name ∧
      p.1.coef = 100 * (Real.exp p.2.coef - 1) ∧
      p.1.lci = 100 * (Real.exp p.2.lci - 1) ∧
      p.1.uci = 100 * (Real.exp p.2.uci - 1) ∧
      p.1.error = 100 * (Real.exp (p.2.coef - p.2.lci) - 1) ∧
      p.1.pcnt = fmt (roundTo n (100 * (Real.exp p.2.coef - 1))) ++ "% (" ++
        fmt (roundTo n (100 * (Real.exp p.2.lci - 1))) ++ "% to " ++
        fmt (roundTo n (100 * (Real.exp p.2.uci - 1))) ++ "%)" := by
  constructor
  · simp [get_ci_df]
  · intro p hp
    rw [fst_eq_of_mem_zip_map (ci_row fmt n) rows p hp]
    exact ⟨rfl, rfl, rfl, rfl, rfl, rfl⟩

/-!
Model fitting (`get_regression`, its.py lines 63-90).  The statsmodels
optimizer is an external collaborator, modelled as a function from the
fit configuration to a fit outcome.
-/

/-- The configuration `get_regression` hands to the library fit call:
covariance type, the HAC maximum lag, and the iteration budget. -/
structure FitParams where
  cov_type : String
  maxlags : ℕ
  maxiter : ℕ
deriving DecidableEq, Repr

/-- What the library fit call reports back: the convergence flag
(`mle_retvals["converged"]`) and the printed summary. -/
structure FitResult where
  converged : Bool
  summary : String
deriving DecidableEq, Repr

/-- `get_regression` (its.py lines 63-90): single-series HAC covariance
or panel hac-groupsum covariance, `maxiter=200` in both branches, then
raise `ConvergenceWarning("Failed to converge")` unless the optimizer
converged. -/
def get_regression (fit : FitParams → FitResult) (lags : ℕ)
    (interaction_group : Option String) : Except String FitResult :=
  let model_errors :=
    match interaction_group with
    | none => fit { cov_type := "HAC", maxlags := lags, maxiter := 200 }
    | some _ => fit { cov_type := "hac-groupsum", maxlags := lags,
                      maxiter := 200 }
  if model_errors.converged then Except.ok model_errors
  else Except.error "Failed to converge"

/-- The single-series branch of `get_regression`, reduced. -/
lemma get_regression_none (fit : FitParams → FitResult) (lags : ℕ) :
    get_regression fit lags none =
      if (fit ⟨"HAC", lags, 200⟩).converged
      then Except.ok (fit ⟨"HAC", lags, 200⟩)
      else Except.error "Failed to converge" := rfl

/-- The panel branch of `get_regression`, reduced. -/
lemma get_regression_some (fit : FitParams → FitResult) (lags : ℕ)
    (g : String) :
    get_regression fit lags (some g) =
      if (fit ⟨"hac-groupsum", lags, 200⟩).converged
      then Except.ok (fit ⟨"hac-groupsum", lags, 200⟩)
      else Except.error "Failed to converge" := rfl

/-- C5: `get_regression` never returns an unconverged fit — a returned
model converged and came from a fit call with an iteration budget of
200 — and a non-converged fit surfaces as the diagnostic error
"Failed to converge" instead of a return value. -/
theorem get_regression_convergence_contract (fit : FitParams → FitResult)
    (lags : ℕ) (interaction_group : Option String) :
    (∀ r, get_regression fit lags interaction_group = Except.ok r →
      r.converged = true ∧ ∃ p : FitParams, p.maxiter = 200 ∧ fit p = r) ∧
    (∀ e, get_regression fit lags interaction_group = Except.error e →
      e = "Failed to converge") := by
  cases interaction_group with
  | none =>
      rw [get_regression_none]
      by_cases hc : (fit ⟨"HAC", lags, 200⟩).converged = true
      · rw [if_pos hc]
        refine ⟨fun r hr => ?_, fun e he => by cases he⟩
        cases hr
        exact ⟨hc, ⟨⟨"HAC", lags, 200⟩, rfl, rfl⟩⟩
      · rw [if_neg hc]
        refine ⟨fun r hr => (by cases hr), fun e he => ?_⟩
        cases he
        rfl
  | some g =>
      rw [get_regression_some]
      by_cases hc : (fit ⟨"hac-groupsum", lags, 200⟩).converged = true
      · rw [if_pos hc]
        refine ⟨fun r hr => ?_, fun e he => by cases he⟩
        cases hr
        exact ⟨hc, ⟨⟨"hac-groupsum", lags, 200⟩, rfl, rfl⟩⟩
      · rw [if_neg hc]
        refine ⟨fun r hr => (by cases hr), fun e he => ?_⟩
        cases he
        rfl

/-!
Formula building (`get_formula`, its.py lines 37-60).  The categorical
levels are passed as the list of unique observed values of the grouping
column; the function returns the formula string together with the level
order after the reference is moved to the front.
-/

/-- The base formula string (its.py lines 45-47). -/
def base_formula : String :=
  "numerator ~ time + step + slope + mar20 + april20 + step2 + slope2"

/-- Lines 51-53: `levels.remove(reference)` then `[reference] + levels`.
Python `list.remove` raises `ValueError` when the reference is absent,
hence `none`. -/
def reorder_levels (levels : List String) (reference : String) :
    Option (List String) :=
  if reference ∈ levels then some (reference :: levels.erase reference)
  else none

/-- Line 59: `formula += "+ " + "+".join(fourier_terms)`. -/
def addFourier (formula : String) : Option (List String) → String
  | none => formula
  | some ts => formula ++ "+ " ++ String.intercalate "+" ts

/-- `get_formula` (its.py lines 37-60): base terms, then the interaction
block with the reordered categorical, then the fourier terms. -/
def get_formula (levels : List String) (fourier_terms : Option (List String))
    (interaction_group : Option String) (reference : String) :
    Option (String × List String) :=
  match interaction_group with
  | none => some (addFourier base_formula fourier_terms, levels)
  | some g =>
      match reorder_levels levels reference with
      | none => none
      | some lv =>
          some (addFourier (base_formula ++ "+ step*" ++ g ++ " + slope*" ++
            g ++ " + step2*" ++ g ++ " + slope2*" ++ g) fourier_terms, lv)

/-- C6: the formula always contains
`time, step, slope, mar20, april20, step2, slope2` in that order; with an
interaction group the observed levels are reordered with the reference
first (the others keeping their relative order) and interaction terms are
added exactly for `step, slope, step2, slope2` crossed with the group;
harmonic terms `s1, c1` are appended last and never interacted. -/
theorem get_formula_spec (levels : List String) (g reference : String)
    (fourier : List String) (href : reference ∈ levels) :
    get_formula levels none none reference = some (base_formula, levels) ∧
    get_formula levels (some fourier) none reference =
      some (base_formula ++ "+ " ++ String.intercalate "+" fourier,
        levels) ∧
    get_formula levels (some ["s1", "c1"]) (some g) reference =
      some (base_formula ++ "+ step*" ++ g ++ " + slope*" ++ g ++
        " + step2*" ++ g ++ " + slope2*" ++ g ++ "+ s1+c1",
        reference :: levels.erase reference) ∧
    (levels.erase reference).Sublist levels ∧
    base_formula =
      "numerator ~ time + step + slope + mar20 + april20 + step2 + slope2" := by
  refine ⟨rfl, rfl, ?_, List.erase_sublist reference levels, rfl⟩
  unfold get_formula reorder_levels
  rw [if_pos href]
  show some ((base_formula ++ "+ step*" ++ g ++ " + slope*" ++ g ++
    " + step2*" ++ g ++ " + slope2*" ++ g) ++ "+ " ++
    String.intercalate "+" ["s1", "c1"],
    reference :: levels.erase reference) = _
  rw [String.append_assoc]
  exact rfl

/-- Witness for C6 at a concrete level list and reference. -/
theorem get_formula_spec_witness :
    get_formula ["A", "B"] (some ["s1", "c1"]) (some "group_0") "B" =
      some ("numerator ~ time + step + slope + mar20 + april20 + step2 + slope2" ++
        "+ step*group_0 + slope*group_0 + step2*group_0 + slope2*group_0" ++
        "+ s1+c1", ["B", "A"]) :=
  by
    have h := (get_formula_spec ["A", "B"] "group_0" "B" ["s1", "c1"]
      (by decide)).2.2.1
    rw [h]
    rfl

/-!
Numeric coercion (`coerce_numeric`, its.py lines 528-544).
`pandas.to_numeric(..., errors="coerce")` is modelled with an explicit
`parse` function for strings; numeric cells pass through and anything
unparseable becomes missing (NaN).
-/

/-- One cell of the raw measures table: a number, an arbitrary string
(for instance the redaction placeholder), or missing. -/
inductive Cell where
  | num (q : ℚ)
  | text (s : String)
  | missing
deriving DecidableEq, Repr

/-- One raw row of the joined measures file, before numeric coercion. -/
structure MRow where
  name : String
  date : Date
  numerator : Cell
  denominator : Cell
  value : Cell
  group_0 : String
  category_0 : String
deriving DecidableEq, Repr

/-- `pandas.to_numeric(x, errors="coerce")` on one cell: numbers are
unchanged, strings parse or become missing, missing stays missing. -/
def to_numeric_coerce (parse : String → Option ℚ) : Cell → Cell
  | .num q => .num q
  | .text s =>
      match parse s with
      | some q => .num q
      | none => .missing
  | .missing => .missing

/-- `coerce_numeric` (its.py lines 528-544): coerce the `numerator`,
`denominator` and `value` columns of a copy of the table. -/
def coerce_numeric (parse : String → Option ℚ) (table : List MRow) :
    List MRow :=
  table.map fun r =>
    { r with numerator := to_numeric_coerce parse r.numerator,
             denominator := to_numeric_coerce parse r.denominator,
             value := to_numeric_coerce parse r.value }

/-- C9: `coerce_numeric` keeps every row and every other column; numeric
entries of `numerator`/`denominator`/`value` are unchanged; entries the
numeric parser rejects (the redaction placeholder included) become
missing — never zero. -/
theorem coerce_numeric_spec (parse : String → Option ℚ)
    (table : List MRow) :
    (coerce_numeric parse table).length = table.length ∧
    (∀ p ∈ (coerce_numeric parse table).zip table,
      p.1.name = p.2.name ∧ p.1.date = p.2.date ∧
      p.1.group_0 = p.2.group_0 ∧ p.1.category_0 = p.2.category_0 ∧
      p.1.numerator = to_numeric_coerce parse p.2.numerator ∧
      p.1.denominator = to_numeric_coerce parse p.2.denominator ∧
      p.1.value = to_numeric_coerce parse p.2.value) ∧
    (∀ q, to_numeric_coerce parse (Cell.num q) = Cell.num q) ∧
    (∀ s, parse s = none →
      to_numeric_coerce parse (Cell.text s) = Cell.missing ∧
      to_numeric_coerce parse (Cell.text s) ≠ Cell.num 0) ∧
    to_numeric_coerce parse Cell.missing = Cell.missing := by
  refine ⟨by simp [coerce_numeric], ?_, fun q => rfl, ?_, rfl⟩
  · intro p hp
    rw [fst_eq_of_mem_zip_map _ table p hp]
    exact ⟨rfl, rfl, rfl, rfl, rfl, rfl, rfl⟩
  · intro s hs
    constructor
    · simp [to_numeric_coerce, hs]
    · simp [to_numeric_coerce, hs]

/-!
Key retention and decomposition in `pcnt_change` (its.py lines 313-324).
Python strings are embedded through their character lists; `str.split`,
`str.rstrip`, `in` and the `str.contains` regex of line 314 are defined
below with Python's semantics.
-/

/-- The regex "T." of line 314 on a character list: a 'T' followed by at
least one further character. -/
def containsTdotAux : List Char → Bool
  | [] => false
  | [_] => false
  | a :: b :: rest => a == 'T' || containsTdotAux (b :: rest)

/-- `df.index.str.contains("T.")` for one key (line 314): the pattern is
a regex, so it means a 'T' followed by any character. -/
def containsTdot (s : String) : Bool := containsTdotAux s.data

/-- One step of `splitChar`: prepend character `a` to an already split
tail. -/
def splitCharCons (sep a : Char) : List (List Char) → List (List Char)
  | [] => [[]]
  | cur :: parts =>
      if a == sep then [] :: cur :: parts else (a :: cur) :: parts

/-- Python `str.split(sep)` for a one-character separator, on character
lists: always returns one more chunk than there are separators. -/
def splitChar (sep : Char) : List Char → List (List Char)
  | [] => [[]]
  | a :: rest => splitCharCons sep a (splitChar sep rest)

/-- Python `s.split(sep)` for a one-character separator. -/
def pySplit (sep : Char) (s : String) : List String :=
  (splitChar sep s.data).map (fun l => String.mk l)

/-- Python `c in s` for a one-character needle. -/
def pyContains (c : Char) (s : String) : Bool :=
  s.data.any (fun a => a == c)

/-- Python `s.rstrip(c)`: drop every trailing occurrence of `c`. -/
def pyRstrip (c : Char) (s : String) : String :=
  String.mk ((s.data.reverse.dropWhile (fun a => a == c)).reverse)

/-- The body of the key loop once the dot-split parts are known: keep
the text before the colon when there is one, else `"baseline"`, and
strip the trailing brackets off the level. `none` unless the split has
exactly two parts (Python's tuple unpacking raises otherwise). -/
def decompose_parts : List String → Option (String × String)
  | [x, y] =>
      some (if pyContains ':' x then (pySplit ':' x).headD ""
            else "baseline",
        pyRstrip ']' y)
  | _ => none

/-- Lines 317-324 for one retained key: `x, y = key.split(".")`, then
`x = x.split(":")[0]` when `x` contains a colon else `"baseline"`, and
`group = y.rstrip("]")`. -/
def decompose_key (key : String) : Option (String × String) :=
  decompose_parts (pySplit '.' key)

/-- Line 314: the rows of the confidence-interval frame that
`pcnt_change` keeps. -/
def pcnt_change_retained (keys : List String) : List String :=
  keys.filter containsTdot

/-- The key loop of lines 315-324: decompose every key in order,
aborting (as the raised `ValueError` does) at the first failure. -/
def decompose_all : List String → Option (List (String × String))
  | [] => some []
  | k :: ks =>
      match decompose_key k, decompose_all ks with
      | some p, some ps => some (p :: ps)
      | _, _ => none

/-- Lines 313-324 combined: the retained keys and their decomposition
into (change_type, group_level) pairs; `none` when any two-way split
raises. -/
def pcnt_change_keys (keys : List String) :
    Option (List (String × String)) :=
  decompose_all (pcnt_change_retained keys)

/-- The name statsmodels gives the main effect of treatment level `v` of
a categorical column `g`. -/
def level_key (g v : String) : String := g ++ "[T." ++ v ++ "]"

/-- The name statsmodels gives the interaction of term `t` with
treatment level `v` of a categorical column `g`. -/
def cross_key (t g v : String) : String :=
  t ++ ":" ++ g ++ "[T." ++ v ++ "]"

/-- `splitCharCons` never returns the empty list. -/
lemma splitCharCons_ne_nil (sep a : Char) (parts : List (List Char)) :
    splitCharCons sep a parts ≠ [] := by
  cases parts with
  | nil => simp [splitCharCons]
  | cons cur ps =>
      simp only [splitCharCons]
      by_cases ha : (a == sep) = true
      · rw [if_pos ha]; simp
      · rw [if_neg ha]; simp

/-- `splitChar` never returns the empty list. -/
lemma splitChar_ne_nil (sep : Char) (l : List Char) :
    splitChar sep l ≠ [] := by
  cases l with
  | nil => simp [splitChar]
  | cons a rest =>
      simp only [splitChar]
      exact splitCharCons_ne_nil sep a _

/-- Splitting a separator-free chunk yields that single chunk. -/
lemma splitChar_no_sep (sep : Char) (l : List Char)
    (h : ∀ a ∈ l, (a == sep) = false) : splitChar sep l = [l] := by
  induction l with
  | nil => rfl
  | cons a rest ih =>
      simp only [splitChar]
      rw [ih (fun x hx => h x (List.mem_cons_of_mem a hx))]
      simp only [splitCharCons]
      rw [if_neg (by simp [h a (List.mem_cons_self a rest)])]

/-- Splitting peels off a leading separator-free chunk. -/
lemma splitChar_append_sep (sep : Char) (l1 l2 : List Char)
    (h : ∀ a ∈ l1, (a == sep) = false) :
    splitChar sep (l1 ++ sep :: l2) = l1 :: splitChar sep l2 := by
  induction l1 with
  | nil =>
      simp only [List.nil_append, splitChar]
      rcases hs : splitChar sep l2 with _ | ⟨cur, parts⟩
      · exact absurd hs (splitChar_ne_nil sep l2)
      · simp only [splitCharCons]
        rw [if_pos (by simp)]
  | cons a rest ih =>
      simp only [List.cons_append, splitChar, List.append_eq]
      rw [ih (fun x hx => h x (List.mem_cons_of_mem a hx))]
      simp only [splitCharCons]
      rw [if_neg (by simp [h a (List.mem_cons_self a rest)])]

/-- The number of chunks is the number of separators plus one. -/
lemma splitChar_length (sep : Char) (l : List Char) :
    (splitChar sep l).length = l.count sep + 1 := by
  induction l with
  | nil => rfl
  | cons a rest ih =>
      simp only [splitChar]
      rcases hs : splitChar sep rest with _ | ⟨cur, parts⟩
      · exact absurd hs (splitChar_ne_nil sep rest)
      · rw [hs] at ih
        simp only [splitCharCons]
        by_cases ha : (a == sep) = true
        · have ha' : a = sep := eq_of_beq ha
          subst ha'
          rw [if_pos (by simp), List.count_cons_self]
          simp only [List.length_cons] at ih ⊢
          omega
        · have ha' : ¬a = sep := fun he => ha (by rw [he]; exact beq_self_eq_true sep)
          rw [if_neg ha, List.count_cons_of_ne (Ne.symm ha')]
          simp only [List.length_cons] at ih ⊢
          omega

/-- Rebuilding a string from its characters is the identity. -/
lemma string_mk_data (s : String) : String.mk s.data = s := by
  cases s
  rfl

/-- A character-wise reading of `pyContains c s = false`. -/
lemma pyContains_forall {c : Char} {s : String}
    (h : pyContains c s = false) : ∀ a ∈ s.data, (a == c) = false := by
  intro a ha
  cases hb : (a == c) with
  | false => rfl
  | true =>
      have hc : pyContains c s = true := by
        unfold pyContains
        rw [List.any_eq_true]
        exact ⟨a, ha, hb⟩
      rw [h] at hc
      cases hc

/-- `pyContains c s = true` gives membership of `c` in the characters. -/
lemma char_mem_of_pyContains {c : Char} {s : String}
    (h : pyContains c s = true) : c ∈ s.data := by
  unfold pyContains at h
  rw [List.any_eq_true] at h
  obtain ⟨a, ha, hac⟩ := h
  exact (eq_of_beq hac) ▸ ha

/-- A character a string does not contain occurs zero times. -/
lemma count_zero_of_not_pyContains {c : Char} {s : String}
    (h : pyContains c s = false) : s.data.count c = 0 := by
  rw [List.count_eq_zero]
  intro hc
  have hfa := pyContains_forall h c hc
  rw [beq_self_eq_true] at hfa
  cases hfa

/-- A character a string contains occurs at least once. -/
lemma count_pos_of_pyContains {c : Char} {s : String}
    (h : pyContains c s = true) : 0 < s.data.count c :=
  List.count_pos_iff.mpr (char_mem_of_pyContains h)

/-- The characters of a cross-term key, dot-split-ready. -/
lemma cross_key_data (t g v : String) :
    (cross_key t g v).data =
      (t.data ++ ':' :: (g.data ++ ['[', 'T'])) ++
        '.' :: (v.data ++ [']']) := by
  unfold cross_key
  simp only [String.data_append]
  simp [List.append_assoc]

/-- The characters of a main-effect key, dot-split-ready. -/
lemma level_key_data (g v : String) :
    (level_key g v).data =
      (g.data ++ ['[', 'T']) ++ '.' :: (v.data ++ [']']) := by
  unfold level_key
  simp only [String.data_append]
  simp [List.append_assoc]

/-- Stripping the trailing bracket off a level that does not itself end
in a bracket recovers the level. -/
lemma pyRstrip_bracket (v : String) (hvb : v.data.getLast? ≠ some ']') :
    pyRstrip ']' (String.mk (v.data ++ [']'])) = v := by
  unfold pyRstrip
  show String.mk (((v.data ++ [']']).reverse.dropWhile
    (fun a => a == ']')).reverse) = v
  rw [List.reverse_append]
  show String.mk ((List.dropWhile (fun a => a == ']')
    (']' :: v.data.reverse)).reverse) = v
  rw [List.dropWhile_cons]
  rw [if_pos (by simp)]
  have hstay : List.dropWhile (fun a => a == ']') v.data.reverse =
      v.data.reverse := by
    cases hr : v.data.reverse with
    | nil => rfl
    | cons b bs =>
        rw [List.dropWhile_cons]
        have hb : v.data.getLast? = some b := by
          rw [← List.head?_reverse, hr]
          rfl
        have hbne : ¬(b = ']') := fun he => hvb (he ▸ hb)
        rw [if_neg (by simp [hbne])]
  rw [hstay, List.reverse_reverse, string_mk_data]

/-- Decomposition of an interaction-term key `t:g[T.v]`: change type `t`
(the text before the colon), group level `v`. -/
lemma decompose_cross_key (t g v : String)
    (htc : pyContains ':' t = false) (htd : pyContains '.' t = false)
    (hgd : pyContains '.' g = false)
    (hvd : pyContains '.' v = false) (hvb : v.data.getLast? ≠ some ']') :
    decompose_key (cross_key t g v) = some (t, v) := by
  unfold decompose_key pySplit
  rw [cross_key_data]
  rw [splitChar_append_sep '.' _ _ ?hfree]
  case hfree =>
    intro a ha
    rcases List.mem_append.1 ha with ha | ha
    · exact pyContains_forall htd a ha
    · rcases List.mem_cons.1 ha with rfl | ha
      · decide
      · rcases List.mem_append.1 ha with ha | ha
        · exact pyContains_forall hgd a ha
        · rcases List.mem_cons.1 ha with rfl | ha
          · decide
          · rcases List.mem_cons.1 ha with rfl | ha
            · decide
            · cases ha
  rw [splitChar_no_sep '.' _ ?hfree2]
  case hfree2 =>
    intro a ha
    rcases List.mem_append.1 ha with ha | ha
    · exact pyContains_forall hvd a ha
    · rcases List.mem_cons.1 ha with rfl | ha
      · decide
      · cases ha
  simp only [List.map_cons, List.map_nil]
  show some (if pyContains ':'
      (String.mk (t.data ++ ':' :: (g.data ++ ['[', 'T']))) then
        (pySplit ':' (String.mk (t.data ++ ':' ::
          (g.data ++ ['[', 'T'])))).headD ""
      else "baseline",
    pyRstrip ']' (String.mk (v.data ++ [']']))) = some (t, v)
  rw [pyRstrip_bracket v hvb]
  have hx : pyContains ':'
      (String.mk (t.data ++ ':' :: (g.data ++ ['[', 'T']))) = true := by
    unfold pyContains
    rw [List.any_eq_true]
    exact ⟨':', List.mem_append_right _ (List.mem_cons_self _ _), by simp⟩
  rw [if_pos hx]
  have hsplit : pySplit ':'
      (String.mk (t.data ++ ':' :: (g.data ++ ['[', 'T']))) =
      t :: (splitChar ':' (g.data ++ ['[', 'T'])).map String.mk := by
    unfold pySplit
    show (splitChar ':' (t.data ++ ':' ::
      (g.data ++ ['[', 'T']))).map String.mk = _
    rw [splitChar_append_sep ':' _ _ (pyContains_forall htc)]
    rw [List.map_cons, string_mk_data]
  rw [hsplit]
  rfl

/-- Decomposition of a categorical main-effect key `g[T.v]`: change type
`"baseline"`, group level `v`. -/
lemma decompose_level_key (g v : String)
    (hgc : pyContains ':' g = false) (hgd : pyContains '.' g = false)
    (hvd : pyContains '.' v = false) (hvb : v.data.getLast? ≠ some ']') :
    decompose_key (level_key g v) = some ("baseline", v) := by
  unfold decompose_key pySplit
  rw [level_key_data]
  rw [splitChar_append_sep '.' _ _ ?hfree]
  case hfree =>
    intro a ha
    rcases List.mem_append.1 ha with ha | ha
    · exact pyContains_forall hgd a ha
    · rcases List.mem_cons.1 ha with rfl | ha
      · decide
      · rcases List.mem_cons.1 ha with rfl | ha
        · decide
        · cases ha
  rw [splitChar_no_sep '.' _ ?hfree2]
  case hfree2 =>
    intro a ha
    rcases List.mem_append.1 ha with ha | ha
    · exact pyContains_forall hvd a ha
    · rcases List.mem_cons.1 ha with rfl | ha
      · decide
      · cases ha
  simp only [List.map_cons, List.map_nil]
  show some (if pyContains ':' (String.mk (g.data ++ ['[', 'T'])) then
        (pySplit ':' (String.mk (g.data ++ ['[', 'T']))).headD ""
      else "baseline",
    pyRstrip ']' (String.mk (v.data ++ [']']))) = some ("baseline", v)
  rw [pyRstrip_bracket v hvb]
  have hx : pyContains ':' (String.mk (g.data ++ ['[', 'T'])) = false := by
    unfold pyContains
    rw [List.any_eq_false]
    intro a ha
    rcases List.mem_append.1 ha with ha | ha
    · simp [pyContains_forall hgc a ha]
    · rcases List.mem_cons.1 ha with rfl | ha
      · decide
      · rcases List.mem_cons.1 ha with rfl | ha
        · decide
        · cases ha
  rw [if_neg (by simp [hx])]

/-- The two-way dot split of a key succeeds exactly when the key has one
dot. -/
lemma decompose_key_isSome (key : String) :
    (decompose_key key).isSome = true ↔ key.data.count '.' = 1 := by
  have hlen := splitChar_length '.' key.data
  unfold decompose_key pySplit
  rcases h : splitChar '.' key.data with _ | ⟨x, xs⟩
  · exact absurd h (splitChar_ne_nil _ _)
  rcases xs with _ | ⟨y, ys⟩
  · rw [h] at hlen
    simp only [List.length_cons, List.length_nil] at hlen
    simp only [List.map_cons, List.map_nil]
    show (decompose_parts [String.mk x]).isSome = true ↔ _
    simp only [decompose_parts, Option.isSome_none]
    constructor
    · intro hfalse
      cases hfalse
    · intro hc
      omega
  rcases ys with _ | ⟨z, zs⟩
  · rw [h] at hlen
    simp only [List.length_cons, List.length_nil] at hlen
    simp only [List.map_cons, List.map_nil]
    show (decompose_parts [String.mk x, String.mk y]).isSome = true ↔ _
    simp only [decompose_parts, Option.isSome_some]
    constructor
    · intro _
      omega
    · intro _
      trivial
  · rw [h] at hlen
    simp only [List.length_cons] at hlen
    simp only [List.map_cons]
    show (decompose_parts (String.mk x :: String.mk y :: String.mk z ::
      zs.map String.mk)).isSome = true ↔ _
    have hne : decompose_parts (String.mk x :: String.mk y :: String.mk z ::
        zs.map String.mk) = none := rfl
    rw [hne]
    simp only [Option.isSome_none]
    constructor
    · intro hfalse
      cases hfalse
    · intro hc
      omega

/-- A 'T' followed by a further character anywhere makes
`containsTdotAux` true. -/
lemma containsTdotAux_inside (l1 l2 : List Char) (c : Char) :
    containsTdotAux (l1 ++ 'T' :: c :: l2) = true := by
  induction l1 with
  | nil => simp [containsTdotAux]
  | cons a rest ih =>
      cases rest with
      | nil =>
          show containsTdotAux (a :: 'T' :: c :: l2) = true
          simp [containsTdotAux]
      | cons b rest' =>
          have ih' := ih
          rw [List.cons_append] at ih'
          show (a == 'T' ||
            containsTdotAux (b :: (rest' ++ 'T' :: c :: l2))) = true
          rw [ih']
          simp

/-- Every cross-term key matches the "T." retention regex. -/
lemma containsTdot_cross_key (t g v : String) :
    containsTdot (cross_key t g v) = true := by
  unfold containsTdot
  rw [cross_key_data]
  have hshape : (t.data ++ ':' :: (g.data ++ ['[', 'T'])) ++
      '.' :: (v.data ++ [']']) =
      (t.data ++ ':' :: (g.data ++ ['['])) ++
        'T' :: '.' :: (v.data ++ [']']) := by
    simp [List.append_assoc]
  rw [hshape]
  exact containsTdotAux_inside _ _ '.'

/-- A failing key anywhere in the loop aborts the whole decomposition. -/
lemma decompose_all_eq_none {k : String} (ks : List String) (hks : k ∈ ks)
    (hk : decompose_key k = none) : decompose_all ks = none := by
  induction ks with
  | nil => cases hks
  | cons b l ih =>
      rcases List.mem_cons.1 hks with rfl | hmem
      · show (match decompose_key k, decompose_all l with
          | some p, some ps => some (p :: ps)
          | _, _ => none) = none
        rw [hk]
      · show (match decompose_key b, decompose_all l with
          | some p, some ps => some (p :: ps)
          | _, _ => none) = none
        rw [ih hmem]
        cases decompose_key b <;> rfl

/-- C3 counterexample: `pcnt_change` retains `group_0[T.High]`, a
categorical main-effect row whose name encodes no `group:term` cross
term (no colon); it is decomposed with change type "baseline". -/
theorem pcnt_change_retains_noncross_counterexample :
    pcnt_change_retained
        ["Intercept", "time", "step", "group_0[T.High]",
          "step:group_0[T.High]"] =
      ["group_0[T.High]", "step:group_0[T.High]"] ∧
    pyContains ':' "group_0[T.High]" = false ∧
    decompose_key "group_0[T.High]" = some ("baseline", "High") := by
  decide

/-- C3 (amended): the rows `pcnt_change` retains are exactly those whose
key matches the regex "T." — the categorical-level rows, i.e. both the
group main-effect rows (decomposed with change type "baseline") and the
`term:group` interaction rows; each retained key is decomposed by a
two-way dot split into (change_type, group_level) with the text before
the colon (or "baseline" without one) and the level with trailing
brackets stripped. -/
theorem pcnt_change_retention_and_decomposition
    (keys : List String) (t g v : String)
    (htc : pyContains ':' t = false) (htd : pyContains '.' t = false)
    (hgc : pyContains ':' g = false) (hgd : pyContains '.' g = false)
    (hvd : pyContains '.' v = false) (hvb : v.data.getLast? ≠ some ']') :
    (∀ k, k ∈ pcnt_change_retained keys ↔
      k ∈ keys ∧ containsTdot k = true) ∧
    decompose_key (cross_key t g v) = some (t, v) ∧
    decompose_key (level_key g v) = some ("baseline", v) := by
  refine ⟨?_, decompose_cross_key t g v htc htd hgd hvd hvb,
    decompose_level_key g v hgc hgd hvd hvb⟩
  intro k
  unfold pcnt_change_retained
  exact List.mem_filter

/-- Witness for C3 at concrete keys. -/
theorem pcnt_change_retention_and_decomposition_witness :
    (∀ k, k ∈ pcnt_change_retained ["time", "step:group_0[T.High]"] ↔
      k ∈ ["time", "step:group_0[T.High]"] ∧ containsTdot k = true) ∧
    decompose_key (cross_key "step" "group_0" "High") =
      some ("step", "High") ∧
    decompose_key (level_key "group_0" "High") =
      some ("baseline", "High") :=
  pcnt_change_retention_and_decomposition
    ["time", "step:group_0[T.High]"] "step" "group_0" "High"
    (by decide) (by decide) (by decide) (by decide) (by decide) (by decide)

/-- C10: the key decomposition is total only when the key has exactly
one dot; a level label containing a dot makes the two-way split of its
cross-term key fail, aborting `pcnt_change`'s key loop. -/
theorem pcnt_change_dot_level_unsplittable (k t g v : String)
    (htd : pyContains '.' t = false) (hgd : pyContains '.' g = false)
    (hvd : pyContains '.' v = true) :
    ((decompose_key k).isSome = true ↔ k.data.count '.' = 1) ∧
    decompose_key (cross_key t g v) = none ∧
    (∀ ks : List String, cross_key t g v ∈ ks →
      pcnt_change_keys ks = none) := by
  have hcount : 2 ≤ (cross_key t g v).data.count '.' := by
    rw [cross_key_data]
    simp only [List.count_append, List.count_cons_self]
    have hv := count_pos_of_pyContains hvd
    have hb : ([']'] : List Char).count '.' = 0 := by decide
    omega
  have hnone : decompose_key (cross_key t g v) = none := by
    rcases hd : decompose_key (cross_key t g v) with _ | p
    · rfl
    · exfalso
      have h1 : (cross_key t g v).data.count '.' = 1 :=
        (decompose_key_isSome (cross_key t g v)).mp (by rw [hd]; rfl)
      omega
  refine ⟨decompose_key_isSome k, hnone, ?_⟩
  intro ks hmemks
  unfold pcnt_change_keys
  refine decompose_all_eq_none _ ?_ hnone
  exact List.mem_filter.2 ⟨hmemks, containsTdot_cross_key t g v⟩

/-- Witness for C10 at a concrete dotted level label. -/
theorem pcnt_change_dot_level_unsplittable_witness :
    ((decompose_key "a.b").isSome = true ↔
      ("a.b" : String).data.count '.' = 1) ∧
    decompose_key (cross_key "step" "group_0" "1.5") = none ∧
    (∀ ks : List String, cross_key "step" "group_0" "1.5" ∈ ks →
      pcnt_change_keys ks = none) :=
  pcnt_change_dot_level_unsplittable "a.b" "step" "group_0" "1.5"
    (by decide) (by decide) (by decide)

/-!
Flag relabelling in `get_model` (its.py lines 180-191) and
`is_bool_as_int` (lines 93-110).  A pandas column is embedded with its
dtype: bool, numeric, or object-of-strings.  The columns reaching this
code have no nulls (`get_model` filters them at line 174), so `dropna`
is the identity.  `pyint` stands for Python `int(str)`.
-/

/-- A pandas column with its dtype. -/
inductive PandasSeries where
  | bools (xs : List Bool)
  | nums (xs : List ℚ)
  | strs (xs : List String)
deriving DecidableEq, Repr

/-- `is_bool_as_int` (its.py lines 93-110): a non-bool numeric column of
only 0/1 values, or an object column whose every entry parses as an
integer 0/1; bool columns answer False. -/
def is_bool_as_int (pyint : String → Option Int) : PandasSeries → Bool
  | .bools _ => false
  | .nums xs => xs.all (fun v => v == 0 || v == 1)
  | .strs xs =>
      match xs.mapM pyint with
      | some vs => vs.all (fun v => v == 0 || v == 1)
      | none => false

/-- Python `x == "1"` where `x` is a number: numbers never equal
strings, so this is always False. -/
def pynum_eq_one_str (_ : ℚ) : Bool := false

/-- The relabelling block of `get_model` (its.py lines 180-191): when
the grouping column is bool-as-int, each row is relabelled from the
paired category column via `"Recored {c}" if x == "1" else
"No recorded {c}"`. -/
def get_model_relabel (pyint : String → Option Int)
    (group : PandasSeries) (category : List String) : PandasSeries :=
  if is_bool_as_int pyint group then
    match group with
    | .nums xs => .strs (List.zipWith
        (fun v c => if pynum_eq_one_str v then "Recored " ++ c
          else "No recorded " ++ c) xs category)
    | .strs xs => .strs (List.zipWith
        (fun v c => if v == "1" then "Recored " ++ c
          else "No recorded " ++ c) xs category)
    | .bools xs => .bools xs
  else group

/-- Python `int(str)` on the digit strings that occur in a 0/1 flag
column, `ValueError` (none) otherwise. -/
def pyIntFlag : String → Option Int
  | "0" => some 0
  | "1" => some 1
  | _ => none

/-- C4 divergence: on a string flag column the value "1" is labelled
"Recored {category}" (a misspelling of the intended "Recorded"), and on
an integer flag column every row — the 1s included — is labelled
"No recorded {category}", because Python `1 == "1"` is False. -/
theorem get_model_relabel_divergence :
    get_model_relabel pyIntFlag (.strs ["1", "0"]) ["autism", "autism"]
      = .strs ["Recored autism", "No recorded autism"] ∧
    "Recored autism" ≠ "Recorded autism" ∧
    get_model_relabel pyIntFlag (.nums [1, 0]) ["autism", "autism"]
      = .strs ["No recorded autism", "No recorded autism"] := by
  refine ⟨by decide, by decide, ?_⟩
  show (if is_bool_as_int pyIntFlag (.nums [1, 0]) then _ else _) =
    PandasSeries.strs ["No recorded autism", "No recorded autism"]
  rw [if_pos ?hflag]
  case hflag =>
    show ([(1 : ℚ), 0].all (fun v => v == 0 || v == 1)) = true
    decide
  rfl

end LDA
